import Mathlib

/-!
Verification of the namespace-auditor repository's decision core.

We shallowly embed the Go source: the batch processor
(`internal/auditor/processor.go` and the root `main.go`), and the
continuous reconciler (`api/v1/namespace_controller.go`).  Go strings are
Lean `String`s; the annotation map is an association list; timestamps are
nanoseconds since the epoch (`Nat`); durations are `Int` (Go's
`time.Duration` is a signed 64-bit nanosecond count); store mutations are
reified as a list of `StoreCall`s instead of being performed.
-/

namespace NsAuditor

/-! ### Go `strings` package model -/

/-- Model of Go `strings.Split(s, sep)` for a single-character separator,
working on the character list. `Split` always returns at least one part. -/
def splitOnChar (c : Char) : List Char → List (List Char)
  | [] => [[]]
  | x :: xs =>
    match splitOnChar c xs with
    | [] => [[]]
    | h :: t => if x = c then [] :: h :: t else (x :: h) :: t

theorem splitOnChar_ne_nil (c : Char) (s : List Char) : splitOnChar c s ≠ [] := by
  cases s with
  | nil => simp [splitOnChar]
  | cons x xs =>
    simp only [splitOnChar]
    cases h : splitOnChar c xs with
    | nil => simp
    | cons h t =>
      by_cases hx : x = c <;> simp [hx]

/-- Go `strings.Split(s, ",")` etc., on `String`. -/
def goSplit (s : String) (c : Char) : List String :=
  (splitOnChar c s.data).map (fun l => ⟨l⟩)

/-- Per-character case folding as used by Go's `strings.ToLower` /
`strings.EqualFold` (model restricted to the ASCII letters, which is all
the repository's domain strings use). -/
def goLowerChar (c : Char) : Char :=
  if 'A' ≤ c ∧ c ≤ 'Z' then Char.ofNat (c.toNat + 32) else c

/-- Go `strings.ToLower` on a character list. -/
def goToLower (s : List Char) : List Char := s.map goLowerChar

/-- Go `strings.EqualFold`: equality up to simple case folding. -/
def goEqualFold (a b : List Char) : Bool := goToLower a == goToLower b

/-! ### RFC-3339 timestamp codec model

Go's `time.Format(time.RFC3339)` renders a time at second precision
(sub-second nanoseconds are dropped) and `time.Parse(time.RFC3339)`
inverts it, failing on any malformed string.  We model the codec by the
second count rendered in decimal after a fixed tag, which preserves
exactly the properties the code relies on: parse-of-format round-trips to
the whole second, and arbitrary strings such as "not-a-timestamp" fail to
parse. -/

/-- Decimal digit character for `d < 10`. -/
def digitChar : Nat → Char
  | 0 => '0' | 1 => '1' | 2 => '2' | 3 => '3' | 4 => '4'
  | 5 => '5' | 6 => '6' | 7 => '7' | 8 => '8' | 9 => '9'
  | _ => '?'

/-- Numeric value of a digit character. -/
def digitVal (c : Char) : Nat := c.toNat - 48

/-- Decimal rendering of a natural number (auxiliary, accumulator form,
fuelled so the recursion is structural). -/
def natDigitsAux : Nat → Nat → List Char → List Char
  | 0, _, acc => acc
  | fuel + 1, n, acc =>
    if n < 10 then digitChar n :: acc
    else natDigitsAux fuel (n / 10) (digitChar (n % 10) :: acc)

/-- Decimal rendering of a natural number (`n + 1` fuel always suffices,
as the argument strictly shrinks at every division by ten). -/
def natDigits (n : Nat) : List Char := natDigitsAux (n + 1) n []

/-- Value of a decimal digit string (most significant first). -/
def digitsVal (a : Nat) : List Char → Nat
  | [] => a
  | c :: cs => digitsVal (a * 10 + digitVal c) cs

theorem digitVal_digitChar {d : Nat} (h : d < 10) : digitVal (digitChar d) = d := by
  interval_cases d <;> decide

theorem isDigit_digitChar {d : Nat} (h : d < 10) : (digitChar d).isDigit = true := by
  interval_cases d <;> decide

theorem digitsVal_nil (a : Nat) : digitsVal a [] = a := rfl

theorem digitsVal_cons (a : Nat) (c : Char) (cs : List Char) :
    digitsVal a (c :: cs) = digitsVal (a * 10 + digitVal c) cs := rfl

theorem digitsVal_append (a : Nat) (xs ys : List Char) :
    digitsVal a (xs ++ ys) = digitsVal (digitsVal a xs) ys := by
  induction xs generalizing a with
  | nil => rfl
  | cons c cs ih =>
    rw [List.cons_append, digitsVal_cons, ih, digitsVal_cons]

/-- Weight (power of ten) matching the digit count of `n`. -/
def pow10len (n : Nat) : Nat :=
  if h : n < 10 then 10 else pow10len (n / 10) * 10
  decreasing_by exact Nat.div_lt_self (by omega) (by omega)

theorem pow10len_eq (n : Nat) :
    pow10len n = if n < 10 then 10 else pow10len (n / 10) * 10 := by
  rw [pow10len]
  split <;> rfl

theorem digitsVal_natDigitsAux (fuel : Nat) :
    ∀ (n : Nat) (acc : List Char) (a : Nat), n < fuel →
      digitsVal a (natDigitsAux fuel n acc) = digitsVal (a * pow10len n + n) acc := by
  induction fuel with
  | zero => intro n acc a h; omega
  | succ fuel ih =>
    intro n acc a h
    rw [natDigitsAux, pow10len_eq]
    by_cases h10 : n < 10
    · simp only [h10, ite_true, digitsVal_cons, digitVal_digitChar h10]
    · simp only [h10, ite_false]
      have hdiv : n / 10 < fuel := by
        have := Nat.div_lt_self (show 0 < n by omega) (show 1 < 10 by omega)
        omega
      rw [ih (n / 10) _ _ hdiv]
      rw [digitsVal_cons, digitVal_digitChar (Nat.mod_lt n (by omega))]
      congr 1
      have := Nat.div_add_mod n 10
      ring_nf
      omega

theorem digitsVal_natDigits (n : Nat) : digitsVal 0 (natDigits n) = n := by
  rw [natDigits, digitsVal_natDigitsAux (n + 1) n [] 0 (by omega), digitsVal_nil]
  omega

theorem natDigitsAux_all_isDigit (fuel : Nat) :
    ∀ (n : Nat) (acc : List Char), (∀ c ∈ acc, c.isDigit = true) →
      ∀ c ∈ natDigitsAux fuel n acc, c.isDigit = true := by
  induction fuel with
  | zero => intro n acc hacc c hc; exact hacc c hc
  | succ fuel ih =>
    intro n acc hacc c hc
    rw [natDigitsAux] at hc
    by_cases h10 : n < 10
    · rw [if_pos h10] at hc
      rcases List.mem_cons.mp hc with rfl | hc
      · exact isDigit_digitChar h10
      · exact hacc c hc
    · rw [if_neg h10] at hc
      refine ih (n / 10) _ ?_ c hc
      intro c hc
      rcases List.mem_cons.mp hc with rfl | hc
      · exact isDigit_digitChar (Nat.mod_lt n (by omega))
      · exact hacc c hc

theorem natDigitsAux_ne_nil (fuel : Nat) :
    ∀ (n : Nat) (acc : List Char), n < fuel → natDigitsAux fuel n acc ≠ [] := by
  induction fuel with
  | zero => intro n acc h; omega
  | succ fuel ih =>
    intro n acc h
    rw [natDigitsAux]
    by_cases h10 : n < 10
    · simp [h10]
    · simp only [h10, ite_false]
      have hdiv : n / 10 < fuel := by
        have := Nat.div_lt_self (show 0 < n by omega) (show 1 < 10 by omega)
        omega
      exact ih (n / 10) _ hdiv

/-- One nanosecond-count second. -/
def nsPerSec : Nat := 1000000000

/-- Model of `time.Time.Format(time.RFC3339)`: renders the timestamp at
second precision (Go drops sub-second nanoseconds when formatting
RFC 3339). -/
def formatRFC3339 (t : Nat) : String :=
  ⟨'T' :: 'S' :: ':' :: natDigits (t / nsPerSec)⟩

/-- Model of `time.Parse(time.RFC3339, s)`: succeeds exactly on strings
produced by the formatter shape, returning a whole-second timestamp;
anything else (e.g. "not-a-timestamp") fails. -/
def parseRFC3339 (s : String) : Option Nat :=
  match s.data with
  | 'T' :: 'S' :: ':' :: rest =>
    if rest ≠ [] ∧ rest.all Char.isDigit then some (digitsVal 0 rest * nsPerSec)
    else none
  | _ => none

theorem parse_format (t : Nat) :
    parseRFC3339 (formatRFC3339 t) = some (t / nsPerSec * nsPerSec) := by
  simp only [parseRFC3339, formatRFC3339]
  have hne : natDigits (t / nsPerSec) ≠ [] := by
    rw [natDigits]
    exact natDigitsAux_ne_nil _ _ [] (by omega)
  have hdig : (natDigits (t / nsPerSec)).all Char.isDigit = true := by
    rw [List.all_eq_true, natDigits]
    exact fun c hc => natDigitsAux_all_isDigit _ _ [] (by simp) c hc
  simp [hne, hdig, digitsVal_natDigits]

theorem parse_format_le (t : Nat) :
    ∀ u, parseRFC3339 (formatRFC3339 t) = some u → u ≤ t := by
  intro u hu
  rw [parse_format] at hu
  simp only [Option.some.injEq] at hu
  have : t / nsPerSec * nsPerSec ≤ t := Nat.div_mul_le_self t nsPerSec
  omega

/-! ### Data model

`corev1.Namespace` restricted to the fields the decision core reads:
name, annotations, labels, and the deletion timestamp the reconciler
checks.  Go's `map[string]string` is modelled as an association list with
unique-key update/delete semantics. -/

structure GoNamespace where
  name : String
  annotations : List (String × String)
  labels : List (String × String)
  deletionTimestamp : Option Nat
deriving DecidableEq

/-- A mutating call issued to the namespace store
(`Namespaces().Update` / `Namespaces().Delete`). -/
inductive StoreCall where
  | update : GoNamespace → StoreCall
  | delete : String → StoreCall
deriving DecidableEq

/-- Go map read `m[k]` with presence flag: first matching key. -/
def lookupAnn : List (String × String) → String → Option String
  | [], _ => none
  | (k, v) :: rest, key => if k = key then some v else lookupAnn rest key

/-- Go `delete(m, k)`. -/
def eraseAnn : List (String × String) → String → List (String × String)
  | [], _ => []
  | (k, v) :: rest, key =>
    if k = key then eraseAnn rest key else (k, v) :: eraseAnn rest key

/-- Go map write `m[k] = v` (replace existing binding, else append). -/
def setAnn : List (String × String) → String → String → List (String × String)
  | [], key, v => [(key, v)]
  | (k, w) :: rest, key, v =>
    if k = key then (key, v) :: rest else (k, w) :: setAnn rest key v

/-- Go map read `m[k]` without presence flag: zero value `""` if absent
(as the reconciler does with `ns.Annotations[deletionAnnotation]`). -/
def lookupAnnD (m : List (String × String)) (k : String) : String :=
  (lookupAnn m k).getD ""

/-- `ownerAnnotation = "owner"` in the batch variant sources. -/
def ownerKey : String := "owner"

/-- `gracePeriodAnnotation = deletionAnnotation = "namespace-auditor/delete-at"`. -/
def deleteAtKey : String := "namespace-auditor/delete-at"

/-- `userEmailLabel = "user-email"` in the reconciler. -/
def userEmailKey : String := "user-email"

/-- Configuration of the `NamespaceProcessor` (grace period, allowed
domains, dry-run flag); `time.Duration` is a signed nanosecond count. -/
structure Config where
  gracePeriod : Int
  allowedDomains : List String
  dryRun : Bool
deriving DecidableEq

/-- Which code path a `ProcessNamespace` invocation took. -/
inductive Branch where
  | skipMissingOwner
  | skipInvalidDomain
  | skipCheckError
  | validClean
  | validRemoveMarker
  | orphanMark
  | orphanCorrupt
  | orphanPending
  | orphanDelete
deriving DecidableEq

/-- Observable result of one engine invocation: the local namespace value
after the call, the store calls issued, whether the identity checker was
invoked, and the decision branch taken. -/
structure ProcResult where
  ns : GoNamespace
  calls : List StoreCall
  checkedIdentity : Bool
  branch : Branch
deriving DecidableEq

/-! ### Batch engine (`internal/auditor/processor.go`, also duplicated in
the root `main.go`)

The identity checker is a fixed function `String → Option Bool`
(`none` models `UserExists` returning an error); `now` is the clock
reading in nanoseconds. -/

/-- `isValidDomain` from `processor.go` / `main.go`: split on `@`,
require exactly two parts, lower-case the domain part, accept iff
`EqualFold` matches some allowed domain. -/
def isValidDomain (email : String) (allowedDomains : List String) : Bool :=
  match splitOnChar '@' email.data with
  | [_, domPart] =>
    let domain := goToLower domPart
    allowedDomains.any (fun d => goEqualFold domain d.data)
  | _ => false

/-- `handleValidUser`: drop a stale deletion marker (respecting dry-run). -/
def handleValidUser (cfg : Config) (ns : GoNamespace) :
    GoNamespace × List StoreCall × Branch :=
  match lookupAnn ns.annotations deleteAtKey with
  | some _ =>
    if cfg.dryRun then (ns, [], .validRemoveMarker)
    else
      let ns' := { ns with annotations := eraseAnn ns.annotations deleteAtKey }
      (ns', [.update ns'], .validRemoveMarker)
  | none => (ns, [], .validClean)

/-- `handleInvalidTimestamp`: remove a malformed marker (respecting dry-run). -/
def handleInvalidTimestamp (cfg : Config) (ns : GoNamespace) :
    GoNamespace × List StoreCall :=
  if cfg.dryRun then (ns, [])
  else
    let ns' := { ns with annotations := eraseAnn ns.annotations deleteAtKey }
    (ns', [.update ns'])

/-- `deleteNamespace`: delete after grace-period expiry (respecting dry-run). -/
def deleteNamespace (cfg : Config) (ns : GoNamespace) :
    GoNamespace × List StoreCall :=
  if cfg.dryRun then (ns, []) else (ns, [.delete ns.name])

/-- `markForDeletion`: stamp the marker with the formatted current time
(respecting dry-run). -/
def markForDeletion (cfg : Config) (now : Nat) (ns : GoNamespace) :
    GoNamespace × List StoreCall :=
  if cfg.dryRun then (ns, [])
  else
    let ns' :=
      { ns with annotations := setAnn ns.annotations deleteAtKey (formatRFC3339 now) }
    (ns', [.update ns'])

/-- `handleInvalidUser`: parse the marker; corrupt ⇒ clean it; expired
(`now.After(deleteTime.Add(gracePeriod))`, a strict comparison) ⇒ delete;
pending ⇒ wait; absent ⇒ mark. -/
def handleInvalidUser (cfg : Config) (now : Nat) (ns : GoNamespace) :
    GoNamespace × List StoreCall × Branch :=
  match lookupAnn ns.annotations deleteAtKey with
  | some existingTime =>
    match parseRFC3339 existingTime with
    | none =>
      let r := handleInvalidTimestamp cfg ns
      (r.1, r.2, .orphanCorrupt)
    | some deleteTime =>
      if (now : Int) > (deleteTime : Int) + cfg.gracePeriod then
        let r := deleteNamespace cfg ns
        (r.1, r.2, .orphanDelete)
      else (ns, [], .orphanPending)
  | none =>
    let r := markForDeletion cfg now ns
    (r.1, r.2, .orphanMark)

/-- `ProcessNamespace` (`internal/auditor/processor.go`): owner check,
domain check, identity check, then the valid/invalid handler. -/
def ProcessNamespace (cfg : Config) (checker : String → Option Bool)
    (now : Nat) (ns : GoNamespace) : ProcResult :=
  match lookupAnn ns.annotations ownerKey with
  | none => ⟨ns, [], false, .skipMissingOwner⟩
  | some email =>
    if email = "" then ⟨ns, [], false, .skipMissingOwner⟩
    else if !isValidDomain email cfg.allowedDomains then
      ⟨ns, [], false, .skipInvalidDomain⟩
    else
      match checker email with
      | none => ⟨ns, [], true, .skipCheckError⟩
      | some true =>
        let r := handleValidUser cfg ns
        ⟨r.1, r.2.1, true, r.2.2⟩
      | some false =>
        let r := handleInvalidUser cfg now ns
        ⟨r.1, r.2.1, true, r.2.2⟩

/-! ### Root `main.go` batch variant

`processNamespace` there takes the graph client as a possibly-nil
pointer; `main` passes `nil` when `--dry-run` is set, and the function
then defaults `existsInEntra := true` without calling the checker. -/

/-- `processNamespace` from the root `main.go`: identical to the auditor
engine except that a nil graph client (`gc == nil`) skips the identity
check and assumes the user exists. -/
def processNamespaceRoot (cfg : Config) (gc : Option (String → Option Bool))
    (now : Nat) (ns : GoNamespace) : ProcResult :=
  match lookupAnn ns.annotations ownerKey with
  | none => ⟨ns, [], false, .skipMissingOwner⟩
  | some email =>
    if email = "" then ⟨ns, [], false, .skipMissingOwner⟩
    else if !isValidDomain email cfg.allowedDomains then
      ⟨ns, [], false, .skipInvalidDomain⟩
    else
      match gc with
      | none =>
        let r := handleValidUser cfg ns
        ⟨r.1, r.2.1, false, r.2.2⟩
      | some checker =>
        match checker email with
        | none => ⟨ns, [], true, .skipCheckError⟩
        | some true =>
          let r := handleValidUser cfg ns
          ⟨r.1, r.2.1, true, r.2.2⟩
        | some false =>
          let r := handleInvalidUser cfg now ns
          ⟨r.1, r.2.1, true, r.2.2⟩

/-- The root `main` wiring: the graph client is constructed only when not
in dry-run mode (`if !*dryRun { graphClient = NewGraphClient(...) }`). -/
def mainRun (cfg : Config) (checker : String → Option Bool)
    (now : Nat) (ns : GoNamespace) : ProcResult :=
  processNamespaceRoot cfg (if cfg.dryRun then none else some checker) now ns

/-! ### Continuous reconciler (`api/v1/namespace_controller.go`) -/

/-- Per-namespace decision outcome shared by both variants. -/
inductive Outcome where
  | skip
  | removeMarker
  | setMarker
  | wait
  | deleteNs
deriving DecidableEq

/-- Result of one `Reconcile` call: local namespace value, store calls,
decision outcome, and the requeue-after duration when one is requested. -/
structure ReconcileResult where
  ns : GoNamespace
  calls : List StoreCall
  outcome : Outcome
  requeueAfter : Option Int
deriving DecidableEq

/-- `NamespaceReconciler.Reconcile`: skips namespaces already being
deleted, reads the email from the `user-email` label (no domain
validation), and uses the inclusive expiry test
`time.Since(deleteTime) >= gracePeriod`. -/
def Reconcile (gracePeriod : Int) (checker : String → Option Bool)
    (now : Nat) (ns : GoNamespace) : ReconcileResult :=
  if ns.deletionTimestamp ≠ none then ⟨ns, [], .skip, none⟩
  else
    match lookupAnn ns.labels userEmailKey with
    | none => ⟨ns, [], .skip, none⟩
    | some userEmail =>
      if userEmail = "" then ⟨ns, [], .skip, none⟩
      else
        match checker userEmail with
        | none => ⟨ns, [], .skip, none⟩
        | some userEx =>
          let current := lookupAnnD ns.annotations deleteAtKey
          if userEx then
            if current ≠ "" then
              let ns' := { ns with annotations := eraseAnn ns.annotations deleteAtKey }
              ⟨ns', [.update ns'], .removeMarker, none⟩
            else ⟨ns, [], .skip, none⟩
          else
            if current = "" then
              let ns' :=
                { ns with annotations := setAnn ns.annotations deleteAtKey (formatRFC3339 now) }
              ⟨ns', [.update ns'], .setMarker, some gracePeriod⟩
            else
              match parseRFC3339 current with
              | none =>
                let ns' := { ns with annotations := eraseAnn ns.annotations deleteAtKey }
                ⟨ns', [.update ns'], .removeMarker, none⟩
              | some deleteTime =>
                if (now : Int) - deleteTime ≥ gracePeriod then
                  ⟨ns, [.delete ns.name], .deleteNs, none⟩
                else ⟨ns, [], .wait, some ((deleteTime : Int) + gracePeriod - now)⟩

/-- Classify a batch branch as a per-namespace decision outcome. -/
def outcomeOf : Branch → Outcome
  | .skipMissingOwner => .skip
  | .skipInvalidDomain => .skip
  | .skipCheckError => .skip
  | .validClean => .skip
  | .validRemoveMarker => .removeMarker
  | .orphanMark => .setMarker
  | .orphanCorrupt => .removeMarker
  | .orphanPending => .wait
  | .orphanDelete => .deleteNs

/-! ### Store semantics

Applying the issued calls to a single-namespace store, to talk about the
state left behind by an invocation. -/

/-- Apply one store call to the (single-namespace) store state. -/
def applyCall (st : Option GoNamespace) : StoreCall → Option GoNamespace
  | .update ns' => st.map (fun _ => ns')
  | .delete _ => none

/-- Apply a list of store calls in order. -/
def applyCalls (st : Option GoNamespace) : List StoreCall → Option GoNamespace
  | [] => st
  | c :: cs => applyCalls (applyCall st c) cs

/-- Is the call an update? -/
def isUpdateCall : StoreCall → Bool
  | .update _ => true
  | .delete _ => false

/-- Is the call a delete? -/
def isDeleteCall : StoreCall → Bool
  | .update _ => false
  | .delete _ => true

/-! ### Association-list map lemmas -/

theorem lookupAnn_nil (k : String) : lookupAnn [] k = none := rfl

theorem lookupAnn_cons (a v k : String) (rest : List (String × String)) :
    lookupAnn ((a, v) :: rest) k = if a = k then some v else lookupAnn rest k := rfl

theorem eraseAnn_cons (a v k : String) (rest : List (String × String)) :
    eraseAnn ((a, v) :: rest) k =
      if a = k then eraseAnn rest k else (a, v) :: eraseAnn rest k := rfl

theorem setAnn_nil (k v : String) : setAnn [] k v = [(k, v)] := rfl

theorem setAnn_cons (a w k v : String) (rest : List (String × String)) :
    setAnn ((a, w) :: rest) k v =
      if a = k then (k, v) :: rest else (a, w) :: setAnn rest k v := rfl

theorem lookupAnn_eraseAnn_self (m : List (String × String)) (k : String) :
    lookupAnn (eraseAnn m k) k = none := by
  induction m with
  | nil => rfl
  | cons p rest ih =>
    obtain ⟨a, v⟩ := p
    by_cases h : a = k
    · rw [eraseAnn_cons, if_pos h, ih]
    · rw [eraseAnn_cons, if_neg h, lookupAnn_cons, if_neg h, ih]

theorem lookupAnn_eraseAnn_ne (m : List (String × String)) {k k' : String}
    (h : k ≠ k') : lookupAnn (eraseAnn m k') k = lookupAnn m k := by
  induction m with
  | nil => rfl
  | cons p rest ih =>
    obtain ⟨a, v⟩ := p
    by_cases ha : a = k'
    · rw [eraseAnn_cons, if_pos ha, ih, lookupAnn_cons,
        if_neg (fun e : a = k => h (Eq.trans (Eq.symm e) ha))]
    · rw [eraseAnn_cons, if_neg ha, lookupAnn_cons, lookupAnn_cons, ih]

theorem lookupAnn_setAnn_self (m : List (String × String)) (k v : String) :
    lookupAnn (setAnn m k v) k = some v := by
  induction m with
  | nil => rw [setAnn_nil, lookupAnn_cons, if_pos rfl]
  | cons p rest ih =>
    obtain ⟨a, w⟩ := p
    by_cases ha : a = k
    · rw [setAnn_cons, if_pos ha, lookupAnn_cons, if_pos rfl]
    · rw [setAnn_cons, if_neg ha, lookupAnn_cons, if_neg ha, ih]

theorem lookupAnn_setAnn_ne (m : List (String × String)) {k k' : String} (v : String)
    (h : k ≠ k') : lookupAnn (setAnn m k' v) k = lookupAnn m k := by
  induction m with
  | nil =>
    rw [setAnn_nil, lookupAnn_cons, if_neg (fun e : k' = k => h (Eq.symm e))]
  | cons p rest ih =>
    obtain ⟨a, w⟩ := p
    by_cases ha : a = k'
    · rw [setAnn_cons, if_pos ha, lookupAnn_cons,
        if_neg (fun e : k' = k => h (Eq.symm e)), lookupAnn_cons,
        if_neg (fun e : a = k => h (Eq.trans (Eq.symm e) ha))]
    · rw [setAnn_cons, if_neg ha, lookupAnn_cons, lookupAnn_cons, ih]

theorem ownerKey_ne_deleteAtKey : ownerKey ≠ deleteAtKey := by decide

/-! ### Characterization of `splitOnChar` -/

theorem splitOnChar_cons (c x : Char) (xs : List Char) {p : List Char}
    {q : List (List Char)} (hr : splitOnChar c xs = p :: q) :
    splitOnChar c (x :: xs) = if x = c then [] :: p :: q else (x :: p) :: q := by
  rw [splitOnChar, hr]

theorem splitOnChar_of_not_mem {c : Char} {s : List Char} (h : c ∉ s) :
    splitOnChar c s = [s] := by
  induction s with
  | nil => rfl
  | cons x xs ih =>
    have hx : x ≠ c := fun e => h (e ▸ List.mem_cons_self x xs)
    have hxs : c ∉ xs := fun m => h (List.mem_cons_of_mem _ m)
    rw [splitOnChar_cons c x xs (ih hxs), if_neg hx]

theorem splitOnChar_single {c : Char} {s y : List Char}
    (h : splitOnChar c s = [y]) : y = s ∧ c ∉ s := by
  induction s generalizing y with
  | nil =>
    simp only [splitOnChar, List.cons.injEq, and_true] at h
    simp [← h]
  | cons x xs ih =>
    cases hr : splitOnChar c xs with
    | nil => exact absurd hr (splitOnChar_ne_nil c xs)
    | cons p q =>
      rw [splitOnChar_cons c x xs hr] at h
      by_cases hx : x = c
      · rw [if_pos hx] at h
        injection h with h1 h2
        exact absurd h2 (by simp)
      · rw [if_neg hx] at h
        injection h with h1 h2
        subst h2
        obtain ⟨rfl, hnm⟩ := ih hr
        refine ⟨h1.symm, ?_⟩
        intro hm
        rcases List.mem_cons.mp hm with e | e
        · exact hx (Eq.symm e)
        · exact hnm e

theorem splitOnChar_prepend {c : Char} {a s : List Char} (ha : c ∉ a)
    {hd : List Char} {rest : List (List Char)}
    (hs : splitOnChar c s = hd :: rest) :
    splitOnChar c (a ++ s) = (a ++ hd) :: rest := by
  induction a with
  | nil => simpa using hs
  | cons x a' ih =>
    have hx : x ≠ c := fun e => ha (e ▸ List.mem_cons_self x a')
    have ha' : c ∉ a' := fun m => ha (List.mem_cons_of_mem _ m)
    rw [List.cons_append, splitOnChar_cons c x (a' ++ s) (ih ha'), if_neg hx,
      List.cons_append]

theorem splitOnChar_pair {c : Char} {s a b : List Char}
    (h : splitOnChar c s = [a, b]) : s = a ++ c :: b ∧ c ∉ a ∧ c ∉ b := by
  induction s generalizing a with
  | nil => simp [splitOnChar] at h
  | cons x xs ih =>
    cases hr : splitOnChar c xs with
    | nil => exact absurd hr (splitOnChar_ne_nil c xs)
    | cons p q =>
      rw [splitOnChar_cons c x xs hr] at h
      by_cases hx : x = c
      · rw [if_pos hx] at h
        injection h with h1 h2
        injection h2 with h2 h3
        subst h1
        have hsingle : splitOnChar c xs = [b] := by rw [hr, h2, h3]
        obtain ⟨rfl, hnm⟩ := splitOnChar_single hsingle
        exact ⟨by simp [hx], by simp, hnm⟩
      · rw [if_neg hx] at h
        injection h with h1 h2
        have hpair : splitOnChar c xs = [p, b] := by rw [hr, h2]
        obtain ⟨rfl, hna, hnb⟩ := ih hpair
        refine ⟨by rw [← h1, List.cons_append], ?_, hnb⟩
        intro hmem
        rcases List.mem_cons.mp (h1 ▸ hmem) with e | e
        · exact hx (Eq.symm e)
        · exact hna e

theorem splitOnChar_pair_rev {c : Char} {a b : List Char}
    (ha : c ∉ a) (hb : c ∉ b) : splitOnChar c (a ++ c :: b) = [a, b] := by
  have h1 : splitOnChar c (c :: b) = [] :: [b] := by
    rw [splitOnChar_cons c c b (splitOnChar_of_not_mem hb), if_pos rfl]
  have := splitOnChar_prepend ha h1
  simpa using this

/-! ### Unfolding lemmas for `isValidDomain` -/

theorem isValidDomain_eq_pair {e : String} {D : List String} {p q : List Char}
    (hsp : splitOnChar '@' e.data = [p, q]) :
    isValidDomain e D = D.any (fun d => goEqualFold (goToLower q) d.data) := by
  unfold isValidDomain
  rw [hsp]

theorem isValidDomain_eq_false_single {e : String} {D : List String} {p : List Char}
    (hsp : splitOnChar '@' e.data = [p]) : isValidDomain e D = false := by
  unfold isValidDomain
  rw [hsp]

theorem isValidDomain_eq_false_many {e : String} {D : List String}
    {p q r : List Char} {rest : List (List Char)}
    (hsp : splitOnChar '@' e.data = p :: q :: r :: rest) :
    isValidDomain e D = false := by
  unfold isValidDomain
  rw [hsp]

/-- `strings.Split(os.Getenv("ALLOWED_DOMAINS"), ",")` as done by
`loadConfig` in `cmd/namespace-auditor/main.go` (and the root `main.go`). -/
def loadAllowedDomains (env : String) : List String := goSplit env ','

/-! ### Claim theorems -/

/-- C5: for all emails `e` and domain lists `D`, `isValidDomain e D` is
true iff `e` contains exactly one `@` (it decomposes as `l ++ '@' :: r`
with `@` in neither part) and the lower-cased substring after the `@`
equals, case-insensitively, some entry of `D`; the function is total and
returns `false` on malformed input. -/
theorem isValidDomain_iff (e : String) (D : List String) :
    isValidDomain e D = true ↔
      ∃ l r : List Char, e.data = l ++ '@' :: r ∧ '@' ∉ l ∧ '@' ∉ r ∧
        ∃ d ∈ D, goEqualFold (goToLower r) d.data = true := by
  constructor
  · intro h
    cases hsp : splitOnChar '@' e.data with
    | nil => exact absurd hsp (splitOnChar_ne_nil _ _)
    | cons p rest =>
      cases rest with
      | nil => rw [isValidDomain_eq_false_single hsp] at h; cases h
      | cons q rest2 =>
        cases rest2 with
        | nil =>
          obtain ⟨hdec, hp, hq⟩ := splitOnChar_pair hsp
          rw [isValidDomain_eq_pair hsp] at h
          obtain ⟨d, hd, hfold⟩ := List.any_eq_true.mp h
          exact ⟨p, q, hdec, hp, hq, d, hd, hfold⟩
        | cons r rest3 =>
          rw [isValidDomain_eq_false_many hsp] at h; cases h
  · rintro ⟨l, r, hdata, hl, hr, d, hd, hfold⟩
    have hsp : splitOnChar '@' e.data = [l, r] := by
      rw [hdata]; exact splitOnChar_pair_rev hl hr
    rw [isValidDomain_eq_pair hsp]
    exact List.any_eq_true.mpr ⟨d, hd, hfold⟩

/-- C10: an empty `ALLOWED_DOMAINS` setting splits into the one-element
list `[""]`, and every owner email of the form `local@` (exactly one `@`,
empty domain part) is then accepted by `isValidDomain` instead of all
emails being rejected. -/
theorem emptyDomains_admit_at_suffix (l : List Char) (h : '@' ∉ l) :
    loadAllowedDomains "" = [""] ∧
      isValidDomain ⟨l ++ ['@']⟩ (loadAllowedDomains "") = true := by
  refine ⟨rfl, ?_⟩
  have hsp : splitOnChar '@' (String.mk (l ++ ['@'])).data = [l, []] :=
    splitOnChar_pair_rev h (by simp)
  rw [isValidDomain_eq_pair hsp]
  rfl

/-- Witness for C10 at the concrete email `"local@"`. -/
theorem emptyDomains_admit_at_suffix_witness :
    ('@' ∉ "local".data) ∧
      isValidDomain ⟨"local".data ++ ['@']⟩ (loadAllowedDomains "") = true :=
  ⟨by decide, (emptyDomains_admit_at_suffix "local".data (by decide)).2⟩

/-- C2: with dry-run enabled, `ProcessNamespace` issues no store calls at
all (zero updates, zero deletes) and leaves the namespace's annotations
byte-for-byte unchanged, on every decision branch. -/
theorem dryRun_no_mutation (cfg : Config) (checker : String → Option Bool)
    (now : Nat) (ns : GoNamespace) (h : cfg.dryRun = true) :
    (ProcessNamespace cfg checker now ns).calls = [] ∧
      (ProcessNamespace cfg checker now ns).ns.annotations = ns.annotations := by
  cases ho : lookupAnn ns.annotations ownerKey with
  | none => simp [ProcessNamespace, ho]
  | some email =>
    by_cases he : email = ""
    · simp [ProcessNamespace, ho, he]
    · by_cases hd : isValidDomain email cfg.allowedDomains
      · cases hc : checker email with
        | none => simp [ProcessNamespace, ho, he, hd, hc]
        | some b =>
          cases b with
          | true =>
            cases hm : lookupAnn ns.annotations deleteAtKey with
            | none => simp [ProcessNamespace, handleValidUser, ho, he, hd, hc, hm]
            | some s => simp [ProcessNamespace, handleValidUser, ho, he, hd, hc, hm, h]
          | false =>
            cases hm : lookupAnn ns.annotations deleteAtKey with
            | none =>
              simp [ProcessNamespace, handleInvalidUser, markForDeletion,
                ho, he, hd, hc, hm, h]
            | some s =>
              cases hp : parseRFC3339 s with
              | none =>
                simp [ProcessNamespace, handleInvalidUser, handleInvalidTimestamp,
                  ho, he, hd, hc, hm, hp, h]
              | some t =>
                by_cases hex : (now : Int) > (t : Int) + cfg.gracePeriod
                · simp [ProcessNamespace, handleInvalidUser, deleteNamespace,
                    ho, he, hd, hc, hm, hp, hex, h]
                · simp [ProcessNamespace, handleInvalidUser,
                    ho, he, hd, hc, hm, hp, hex]
      · simp [ProcessNamespace, ho, he, hd]

/-- Witness for C2: a dry-run invocation on a namespace that would
otherwise be marked for deletion. -/
theorem dryRun_no_mutation_witness :
    (⟨(0 : Int), ["example.com"], true⟩ : Config).dryRun = true ∧
      (ProcessNamespace ⟨0, ["example.com"], true⟩ (fun _ => some false) 0
          ⟨"orphan-ns", [("owner", "u@example.com")], [], none⟩).calls = [] ∧
      (ProcessNamespace ⟨0, ["example.com"], true⟩ (fun _ => some false) 0
          ⟨"orphan-ns", [("owner", "u@example.com")], [], none⟩).ns.annotations =
        (⟨"orphan-ns", [("owner", "u@example.com")], [], none⟩ :
          GoNamespace).annotations :=
  ⟨rfl, dryRun_no_mutation _ (fun _ => some false) 0 _ rfl⟩

/-- C6: a namespace whose `owner` annotation is missing, empty, or has a
domain outside the allowed list is returned entirely untouched: no store
calls, no change to the namespace, and the identity checker is never
invoked. -/
theorem unmanaged_untouched (cfg : Config) (checker : String → Option Bool)
    (now : Nat) (ns : GoNamespace)
    (h : lookupAnn ns.annotations ownerKey = none ∨
        lookupAnn ns.annotations ownerKey = some "" ∨
        ∃ e, lookupAnn ns.annotations ownerKey = some e ∧
          isValidDomain e cfg.allowedDomains = false) :
    (ProcessNamespace cfg checker now ns).calls = [] ∧
      (ProcessNamespace cfg checker now ns).ns = ns ∧
      (ProcessNamespace cfg checker now ns).checkedIdentity = false := by
  rcases h with h | h | ⟨e, he, hd⟩
  · simp [ProcessNamespace, h]
  · simp [ProcessNamespace, h]
  · by_cases hee : e = ""
    · subst hee; simp [ProcessNamespace, he]
    · simp [ProcessNamespace, he, hee, hd]

theorem ProcessNamespace_calls_shape (cfg : Config) (checker : String → Option Bool)
    (now : Nat) (ns : GoNamespace) :
    (ProcessNamespace cfg checker now ns).calls = [] ∨
      (∃ n, (ProcessNamespace cfg checker now ns).calls = [.update n]) ∨
      ∃ m, (ProcessNamespace cfg checker now ns).calls = [.delete m] := by
  cases ho : lookupAnn ns.annotations ownerKey with
  | none => simp [ProcessNamespace, ho]
  | some email =>
    by_cases he : email = ""
    · simp [ProcessNamespace, ho, he]
    · by_cases hd : isValidDomain email cfg.allowedDomains
      · cases hc : checker email with
        | none => simp [ProcessNamespace, ho, he, hd, hc]
        | some b =>
          cases b with
          | true =>
            cases hm : lookupAnn ns.annotations deleteAtKey with
            | none => simp [ProcessNamespace, handleValidUser, ho, he, hd, hc, hm]
            | some s =>
              by_cases hdr : cfg.dryRun <;>
                simp [ProcessNamespace, handleValidUser, ho, he, hd, hc, hm, hdr]
          | false =>
            cases hm : lookupAnn ns.annotations deleteAtKey with
            | none =>
              by_cases hdr : cfg.dryRun <;>
                simp [ProcessNamespace, handleInvalidUser, markForDeletion,
                  ho, he, hd, hc, hm, hdr]
            | some s =>
              cases hp : parseRFC3339 s with
              | none =>
                by_cases hdr : cfg.dryRun <;>
                  simp [ProcessNamespace, handleInvalidUser, handleInvalidTimestamp,
                    ho, he, hd, hc, hm, hp, hdr]
              | some t =>
                by_cases hex : (now : Int) > (t : Int) + cfg.gracePeriod
                · by_cases hdr : cfg.dryRun <;>
                    simp [ProcessNamespace, handleInvalidUser, deleteNamespace,
                      ho, he, hd, hc, hm, hp, hex, hdr]
                · simp [ProcessNamespace, handleInvalidUser, ho, he, hd, hc, hm, hp, hex]
      · simp [ProcessNamespace, ho, he, hd]

/-- C9: one `ProcessNamespace` invocation issues at most one mutating
store call, and in particular never both an update (such as setting a
fresh `delete-at` marker) and a namespace deletion: marking and
deletion-on-expiry are mutually exclusive. -/
theorem at_most_one_mutation (cfg : Config) (checker : String → Option Bool)
    (now : Nat) (ns : GoNamespace) :
    (ProcessNamespace cfg checker now ns).calls.length ≤ 1 ∧
      ¬((ProcessNamespace cfg checker now ns).calls.any isUpdateCall = true ∧
        (ProcessNamespace cfg checker now ns).calls.any isDeleteCall = true) := by
  rcases ProcessNamespace_calls_shape cfg checker now ns with h | ⟨n, h⟩ | ⟨m, h⟩ <;>
    rw [h] <;> simp [isUpdateCall, isDeleteCall]

/-- C3 (amended): for the auditor engine (`internal/auditor/processor.go`,
used by `cmd/namespace-auditor`), the decision branch chosen is identical
with dry-run on and off — dry-run suppresses only the store calls.  (The
root `main.go` variant violates the original claim, see its
counterexample: there dry-run also skips the identity check.) -/
theorem auditor_branch_dryRun_independent (g : Int) (D : List String)
    (checker : String → Option Bool) (now : Nat) (ns : GoNamespace) :
    (ProcessNamespace ⟨g, D, true⟩ checker now ns).branch =
      (ProcessNamespace ⟨g, D, false⟩ checker now ns).branch := by
  cases ho : lookupAnn ns.annotations ownerKey with
  | none => simp [ProcessNamespace, ho]
  | some email =>
    by_cases he : email = ""
    · simp [ProcessNamespace, ho, he]
    · by_cases hd : isValidDomain email D
      · cases hc : checker email with
        | none => simp [ProcessNamespace, ho, he, hd, hc]
        | some b =>
          cases b with
          | true =>
            cases hm : lookupAnn ns.annotations deleteAtKey with
            | none => simp [ProcessNamespace, handleValidUser, ho, he, hd, hc, hm]
            | some s => simp [ProcessNamespace, handleValidUser, ho, he, hd, hc, hm]
          | false =>
            cases hm : lookupAnn ns.annotations deleteAtKey with
            | none =>
              simp [ProcessNamespace, handleInvalidUser, markForDeletion,
                ho, he, hd, hc, hm]
            | some s =>
              cases hp : parseRFC3339 s with
              | none =>
                simp [ProcessNamespace, handleInvalidUser, handleInvalidTimestamp,
                  ho, he, hd, hc, hm, hp]
              | some t =>
                by_cases hex : (now : Int) > (t : Int) + g <;>
                  simp [ProcessNamespace, handleInvalidUser, deleteNamespace,
                    ho, he, hd, hc, hm, hp, hex]
      · simp [ProcessNamespace, ho, he, hd]

/-- Counterexample to C3 as stated: in the root `main.go` variant the
graph client is nil in dry-run mode and the user is assumed to exist, so
for a namespace whose owner does not exist the dry-run branch (clean
path) differs from the real branch (mark-for-deletion path). -/
theorem mainRun_dryRun_changes_branch :
    (mainRun ⟨0, ["example.com"], true⟩ (fun _ => some false) 0
        ⟨"ns1", [("owner", "user@example.com")], [], none⟩).branch ≠
      (mainRun ⟨0, ["example.com"], false⟩ (fun _ => some false) 0
        ⟨"ns1", [("owner", "user@example.com")], [], none⟩).branch := by
  decide

theorem formatRFC3339_ne_empty (t : Nat) : formatRFC3339 t ≠ "" := by
  intro h
  have h2 : ('T' :: 'S' :: ':' :: natDigits (t / nsPerSec)) = ([] : List Char) :=
    congrArg String.data h
  cases h2

theorem parse_format_sec (sec : Nat) :
    parseRFC3339 (formatRFC3339 (sec * nsPerSec)) = some (sec * nsPerSec) := by
  rw [parse_format]
  have h : sec * nsPerSec / nsPerSec = sec := by
    simp only [nsPerSec]
    omega
  rw [h]

theorem ProcessNamespace_orphan_parsed (cfg : Config) (checker : String → Option Bool)
    (now : Nat) (ns : GoNamespace) (e s : String) (t : Nat)
    (hown : lookupAnn ns.annotations ownerKey = some e) (hne : e ≠ "")
    (hdom : isValidDomain e cfg.allowedDomains = true)
    (hchk : checker e = some false)
    (hmark : lookupAnn ns.annotations deleteAtKey = some s)
    (hp : parseRFC3339 s = some t) :
    ProcessNamespace cfg checker now ns =
      if (now : Int) > (t : Int) + cfg.gracePeriod then
        ⟨(deleteNamespace cfg ns).1, (deleteNamespace cfg ns).2, true, .orphanDelete⟩
      else ⟨ns, [], true, .orphanPending⟩ := by
  by_cases hex : (now : Int) > (t : Int) + cfg.gracePeriod <;>
    simp [ProcessNamespace, handleInvalidUser, hown, hne, hdom, hchk, hmark, hp, hex]

theorem Reconcile_orphan_parsed (g : Int) (checker : String → Option Bool)
    (now : Nat) (ns : GoNamespace) (e s : String) (t : Nat)
    (hdel : ns.deletionTimestamp = none)
    (hlbl : lookupAnn ns.labels userEmailKey = some e) (hne : e ≠ "")
    (hchk : checker e = some false)
    (hmark : lookupAnn ns.annotations deleteAtKey = some s) (hsne : s ≠ "")
    (hp : parseRFC3339 s = some t) :
    Reconcile g checker now ns =
      if (now : Int) - (t : Int) ≥ g then ⟨ns, [.delete ns.name], .deleteNs, none⟩
      else ⟨ns, [], .wait, some ((t : Int) + g - now)⟩ := by
  by_cases hex : (now : Int) - (t : Int) ≥ g <;>
    simp [Reconcile, lookupAnnD, hdel, hlbl, hne, hchk, hmark, hsne, hp, hex]

set_option maxRecDepth 8000 in
/-- Counterexample to C1 as stated: with grace period one second and a
marker exactly one second old, the batch engine classifies the namespace
as still pending and issues no delete — `now.After` is strict, so a
marker exactly `g` old is not expired there. -/
theorem boundary_marker_not_deleted :
    (ProcessNamespace ⟨1000000000, ["example.com"], false⟩ (fun _ => some false)
        1000000000
        ⟨"ns1", [("owner", "u@example.com"),
          ("namespace-auditor/delete-at", "TS:0")], [], none⟩).branch =
      Branch.orphanPending ∧
    (ProcessNamespace ⟨1000000000, ["example.com"], false⟩ (fun _ => some false)
        1000000000
        ⟨"ns1", [("owner", "u@example.com"),
          ("namespace-auditor/delete-at", "TS:0")], [], none⟩).calls = [] := by
  decide

/-- C1 (amended): with a marker stamped at `t = sec` seconds and grace
period `g`, at clock `t + g − 1ns` both variants are still pending, and at
clock exactly `t + g` the reconciler's inclusive test (`>=`) deletes while
the batch engine's strict test (`now.After`) still reports pending and
deletes only from `t + g + 1ns` on. -/
theorem grace_boundary (sec g : Nat) (cfg : Config) (checker : String → Option Bool)
    (ns : GoNamespace) (e : String)
    (hg : cfg.gracePeriod = (g : Int))
    (hown : lookupAnn ns.annotations ownerKey = some e) (hne : e ≠ "")
    (hdom : isValidDomain e cfg.allowedDomains = true)
    (hchk : checker e = some false)
    (hmark : lookupAnn ns.annotations deleteAtKey =
      some (formatRFC3339 (sec * nsPerSec)))
    (hlbl : lookupAnn ns.labels userEmailKey = some e)
    (hdel : ns.deletionTimestamp = none) :
    (ProcessNamespace cfg checker (sec * nsPerSec + g) ns).branch =
        Branch.orphanPending ∧
      (ProcessNamespace cfg checker (sec * nsPerSec + g) ns).calls = [] ∧
      (ProcessNamespace cfg checker (sec * nsPerSec + g + 1) ns).branch =
        Branch.orphanDelete ∧
      (Reconcile ((g : Nat) : Int) checker (sec * nsPerSec + g) ns).outcome =
        Outcome.deleteNs ∧
      (1 ≤ g →
        (ProcessNamespace cfg checker (sec * nsPerSec + g - 1) ns).branch =
            Branch.orphanPending ∧
          (Reconcile ((g : Nat) : Int) checker (sec * nsPerSec + g - 1) ns).outcome =
            Outcome.wait) := by
  have hparse := parse_format_sec sec
  have hne' : formatRFC3339 (sec * nsPerSec) ≠ "" := formatRFC3339_ne_empty _
  have hP := fun now => ProcessNamespace_orphan_parsed cfg checker now ns e _
    (sec * nsPerSec) hown hne hdom hchk hmark hparse
  have hR := fun now => Reconcile_orphan_parsed ((g : Nat) : Int) checker now ns e _
    (sec * nsPerSec) hdel hlbl hne hchk hmark hne' hparse
  refine ⟨?_, ?_, ?_, ?_, fun h1 => ⟨?_, ?_⟩⟩
  · rw [hP (sec * nsPerSec + g), hg, if_neg (by push_cast; omega)]
  · rw [hP (sec * nsPerSec + g), hg, if_neg (by push_cast; omega)]
  · rw [hP (sec * nsPerSec + g + 1), hg, if_pos (by push_cast; omega)]
  · rw [hR (sec * nsPerSec + g), if_pos (by push_cast; omega)]
  · rw [hP (sec * nsPerSec + g - 1), hg, if_neg (by omega)]
  · rw [hR (sec * nsPerSec + g - 1), if_neg (by omega)]

/-- Witness for C1 (amended) at `sec = 0`, `g = 1s`. -/
theorem grace_boundary_witness :
    (ProcessNamespace ⟨1000000000, ["statcan.gc.ca"], false⟩ (fun _ => some false)
        (0 * nsPerSec + 1000000000)
        ⟨"w1", [("owner", "w@statcan.gc.ca"),
          ("namespace-auditor/delete-at", "TS:0")],
          [("user-email", "w@statcan.gc.ca")], none⟩).branch =
      Branch.orphanPending ∧
    (Reconcile ((1000000000 : Nat) : Int) (fun _ => some false)
        (0 * nsPerSec + 1000000000)
        ⟨"w1", [("owner", "w@statcan.gc.ca"),
          ("namespace-auditor/delete-at", "TS:0")],
          [("user-email", "w@statcan.gc.ca")], none⟩).outcome =
      Outcome.deleteNs := by
  have h := grace_boundary 0 1000000000
    ⟨1000000000, ["statcan.gc.ca"], false⟩ (fun _ => some false)
    ⟨"w1", [("owner", "w@statcan.gc.ca"),
      ("namespace-auditor/delete-at", "TS:0")],
      [("user-email", "w@statcan.gc.ca")], none⟩
    "w@statcan.gc.ca" (by decide) (by decide) (by decide) (by decide) rfl
    (by decide) (by decide) rfl
  exact ⟨h.1, h.2.2.2.1⟩

/-- Counterexample to C4 as stated: for an owner email with a domain
outside the allowed list, the batch engine skips the namespace (domain
validation) while the reconciler — which performs no domain validation —
marks it for deletion, so the two variants' decisions differ on the same
namespace, identity result, configuration and clock. -/
theorem variants_disagree_on_domain :
    outcomeOf (ProcessNamespace ⟨0, ["example.com"], false⟩ (fun _ => some false) 0
        ⟨"ns1", [("owner", "user@evil.com")],
          [("user-email", "user@evil.com")], none⟩).branch ≠
      (Reconcile 0 (fun _ => some false) 0
        ⟨"ns1", [("owner", "user@evil.com")],
          [("user-email", "user@evil.com")], none⟩).outcome := by
  decide

/-- C4 (amended): the batch engine and the reconciler make the identical
per-namespace decision whenever the namespace carries the same nonempty
email in the `owner` annotation and the `user-email` label, that email's
domain is allowed (the reconciler performs no domain validation of its
own), the marker is not literally the empty string (the reconciler treats
an empty marker value as absent), and the clock is not exactly at the
expiry boundary (where the batch engine's strict test and the
reconciler's inclusive test disagree). -/
theorem variants_agree (cfg : Config) (checker : String → Option Bool)
    (now : Nat) (ns : GoNamespace) (e : String)
    (hdel : ns.deletionTimestamp = none)
    (hlbl : lookupAnn ns.labels userEmailKey = some e)
    (hown : lookupAnn ns.annotations ownerKey = some e)
    (hne : e ≠ "")
    (hdom : isValidDomain e cfg.allowedDomains = true)
    (hmark : lookupAnn ns.annotations deleteAtKey ≠ some "")
    (hbdry : ∀ s t, lookupAnn ns.annotations deleteAtKey = some s →
      parseRFC3339 s = some t → (now : Int) ≠ (t : Int) + cfg.gracePeriod) :
    outcomeOf (ProcessNamespace cfg checker now ns).branch =
      (Reconcile cfg.gracePeriod checker now ns).outcome := by
  cases hc : checker e with
  | none =>
    simp [ProcessNamespace, Reconcile, outcomeOf, hdel, hlbl, hown, hne, hdom, hc]
  | some b =>
    cases hm : lookupAnn ns.annotations deleteAtKey with
    | none =>
      cases b with
      | true =>
        simp [ProcessNamespace, Reconcile, handleValidUser, outcomeOf, lookupAnnD,
          hdel, hlbl, hown, hne, hdom, hc, hm]
      | false =>
        by_cases hdr : cfg.dryRun <;>
          simp [ProcessNamespace, Reconcile, handleInvalidUser, markForDeletion,
            outcomeOf, lookupAnnD, hdel, hlbl, hown, hne, hdom, hc, hm, hdr]
    | some s =>
      have hs : s ≠ "" := fun h' => hmark (h' ▸ hm)
      cases b with
      | true =>
        by_cases hdr : cfg.dryRun <;>
          simp [ProcessNamespace, Reconcile, handleValidUser, outcomeOf, lookupAnnD,
            hdel, hlbl, hown, hne, hdom, hc, hm, hs, hdr]
      | false =>
        cases hp : parseRFC3339 s with
        | none =>
          by_cases hdr : cfg.dryRun <;>
            simp [ProcessNamespace, Reconcile, handleInvalidUser,
              handleInvalidTimestamp, outcomeOf, lookupAnnD,
              hdel, hlbl, hown, hne, hdom, hc, hm, hs, hp, hdr]
        | some t =>
          have hne2 := hbdry s t hm hp
          by_cases hex : (now : Int) > (t : Int) + cfg.gracePeriod
          · have hge : (now : Int) - (t : Int) ≥ cfg.gracePeriod := by omega
            by_cases hdr : cfg.dryRun <;>
              simp [ProcessNamespace, Reconcile, handleInvalidUser, deleteNamespace,
                outcomeOf, lookupAnnD, hdel, hlbl, hown, hne, hdom, hc, hm, hs, hp,
                hex, hge, hdr]
          · have hlt : ¬((now : Int) - (t : Int) ≥ cfg.gracePeriod) := by omega
            simp [ProcessNamespace, Reconcile, handleInvalidUser, outcomeOf,
              lookupAnnD, hdel, hlbl, hown, hne, hdom, hc, hm, hs, hp, hex, hlt]

/-- Witness for C4 (amended): orphaned, unmarked namespace — both
variants decide to set the marker. -/
theorem variants_agree_witness :
    outcomeOf (ProcessNamespace ⟨1000000000, ["example.com"], false⟩
        (fun _ => some false) 0
        ⟨"w4", [("owner", "u@example.com")],
          [("user-email", "u@example.com")], none⟩).branch =
      (Reconcile (⟨1000000000, ["example.com"], false⟩ : Config).gracePeriod
        (fun _ => some false) 0
        ⟨"w4", [("owner", "u@example.com")],
          [("user-email", "u@example.com")], none⟩).outcome := by
  have h := variants_agree ⟨1000000000, ["example.com"], false⟩ (fun _ => some false)
    0 ⟨"w4", [("owner", "u@example.com")],
      [("user-email", "u@example.com")], none⟩ "u@example.com"
    rfl (by decide) (by decide) (by decide) (by decide) (by decide)
    (fun s t hs ht => by simp [lookupAnn, ownerKey, deleteAtKey] at hs)
  exact h

/-- Counterexample to C7 as stated: a namespace with a corrupt
`delete-at` marker but no `owner` annotation is skipped before the marker
is ever examined — the invocation leaves the corrupt annotation in place
instead of removing it, so the removal does not happen under *every*
owner/identity state. -/
theorem corrupt_marker_unowned_kept :
    (ProcessNamespace ⟨0, ["example.com"], false⟩ (fun _ => some false) 0
        ⟨"ns1", [("namespace-auditor/delete-at", "not-a-timestamp")], [],
          none⟩).calls = [] ∧
      lookupAnn (ProcessNamespace ⟨0, ["example.com"], false⟩ (fun _ => some false) 0
          ⟨"ns1", [("namespace-auditor/delete-at", "not-a-timestamp")], [],
            none⟩).ns.annotations deleteAtKey = some "not-a-timestamp" := by
  decide

/-- C7 (amended): for a managed namespace — owner present, nonempty, on
an allowed domain — with dry-run off and the identity check returning
without error, one invocation on a marker that fails RFC-3339 parsing
removes the marker annotation (one update call), performs no namespace
deletion, and does not set a new marker within the same pass. -/
theorem corrupt_marker_removed (cfg : Config) (checker : String → Option Bool)
    (now : Nat) (ns : GoNamespace) (e s : String) (b : Bool)
    (hdry : cfg.dryRun = false)
    (hown : lookupAnn ns.annotations ownerKey = some e) (hne : e ≠ "")
    (hdom : isValidDomain e cfg.allowedDomains = true)
    (hchk : checker e = some b)
    (hmark : lookupAnn ns.annotations deleteAtKey = some s)
    (hp : parseRFC3339 s = none) :
    lookupAnn (ProcessNamespace cfg checker now ns).ns.annotations deleteAtKey =
        none ∧
      (ProcessNamespace cfg checker now ns).ns.annotations =
        eraseAnn ns.annotations deleteAtKey ∧
      (ProcessNamespace cfg checker now ns).calls =
        [.update (ProcessNamespace cfg checker now ns).ns] ∧
      (ProcessNamespace cfg checker now ns).calls.any isDeleteCall = false := by
  cases b with
  | true =>
    simp [ProcessNamespace, handleValidUser, hown, hne, hdom, hchk, hmark, hdry,
      lookupAnn_eraseAnn_self, isDeleteCall]
  | false =>
    simp [ProcessNamespace, handleInvalidUser, handleInvalidTimestamp, hown, hne,
      hdom, hchk, hmark, hp, hdry, lookupAnn_eraseAnn_self, isDeleteCall]

/-- Witness for C7 (amended) at a concrete corrupt-marker namespace. -/
theorem corrupt_marker_removed_witness :
    lookupAnn (ProcessNamespace ⟨0, ["example.com"], false⟩ (fun _ => some false) 0
        ⟨"c7", [("owner", "u@example.com"),
          ("namespace-auditor/delete-at", "not-a-timestamp")], [],
          none⟩).ns.annotations deleteAtKey = none ∧
      (ProcessNamespace ⟨0, ["example.com"], false⟩ (fun _ => some false) 0
          ⟨"c7", [("owner", "u@example.com"),
            ("namespace-auditor/delete-at", "not-a-timestamp")], [],
            none⟩).calls.any isDeleteCall = false := by
  have h := corrupt_marker_removed ⟨0, ["example.com"], false⟩ (fun _ => some false)
    0 ⟨"c7", [("owner", "u@example.com"),
      ("namespace-auditor/delete-at", "not-a-timestamp")], [], none⟩
    "u@example.com" "not-a-timestamp" false rfl (by decide) (by decide) (by decide)
    rfl (by decide) (by decide)
  exact ⟨h.1, h.2.2.2⟩

theorem applyCalls_nil (st : Option GoNamespace) : applyCalls st [] = st := rfl

theorem applyCalls_update (ns n : GoNamespace) :
    applyCalls (some ns) [.update n] = some n := rfl

theorem applyCalls_delete (ns : GoNamespace) (m : String) :
    applyCalls (some ns) [.delete m] = none := rfl

theorem ProcessNamespace_state_cases (cfg : Config) (checker : String → Option Bool)
    (now : Nat) (ns : GoNamespace) :
    ((ProcessNamespace cfg checker now ns).calls = [] ∧
      (ProcessNamespace cfg checker now ns).ns = ns) ∨
    (∃ e s, cfg.dryRun = false ∧
      lookupAnn ns.annotations ownerKey = some e ∧ e ≠ "" ∧
      isValidDomain e cfg.allowedDomains = true ∧ checker e = some true ∧
      lookupAnn ns.annotations deleteAtKey = some s ∧
      (ProcessNamespace cfg checker now ns).ns =
        { ns with annotations := eraseAnn ns.annotations deleteAtKey } ∧
      (ProcessNamespace cfg checker now ns).calls =
        [.update (ProcessNamespace cfg checker now ns).ns]) ∨
    (∃ s, lookupAnn ns.annotations deleteAtKey = some s ∧ parseRFC3339 s = none) ∨
    (∃ e, cfg.dryRun = false ∧
      lookupAnn ns.annotations ownerKey = some e ∧ e ≠ "" ∧
      isValidDomain e cfg.allowedDomains = true ∧ checker e = some false ∧
      lookupAnn ns.annotations deleteAtKey = none ∧
      (ProcessNamespace cfg checker now ns).ns =
        { ns with
          annotations := setAnn ns.annotations deleteAtKey (formatRFC3339 now) } ∧
      (ProcessNamespace cfg checker now ns).calls =
        [.update (ProcessNamespace cfg checker now ns).ns]) ∨
    (ProcessNamespace cfg checker now ns).calls = [.delete ns.name] := by
  cases ho : lookupAnn ns.annotations ownerKey with
  | none => exact Or.inl (by simp [ProcessNamespace, ho])
  | some email =>
    by_cases he : email = ""
    · exact Or.inl (by simp [ProcessNamespace, ho, he])
    · by_cases hd : isValidDomain email cfg.allowedDomains
      · cases hc : checker email with
        | none => exact Or.inl (by simp [ProcessNamespace, ho, he, hd, hc])
        | some b =>
          cases b with
          | true =>
            cases hm : lookupAnn ns.annotations deleteAtKey with
            | none =>
              exact Or.inl
                (by simp [ProcessNamespace, handleValidUser, ho, he, hd, hc, hm])
            | some s =>
              by_cases hdr : cfg.dryRun
              · exact Or.inl (by
                  simp [ProcessNamespace, handleValidUser, ho, he, hd, hc, hm, hdr])
              · refine Or.inr (Or.inl ⟨email, s, by simpa using hdr, rfl, he, hd,
                  hc, rfl, ?_, ?_⟩) <;>
                  simp [ProcessNamespace, handleValidUser, ho, he, hd, hc, hm, hdr]
          | false =>
            cases hm : lookupAnn ns.annotations deleteAtKey with
            | none =>
              by_cases hdr : cfg.dryRun
              · exact Or.inl (by
                  simp [ProcessNamespace, handleInvalidUser, markForDeletion,
                    ho, he, hd, hc, hm, hdr])
              · refine Or.inr (Or.inr (Or.inr (Or.inl ⟨email, by simpa using hdr,
                  rfl, he, hd, hc, rfl, ?_, ?_⟩))) <;>
                  simp [ProcessNamespace, handleInvalidUser, markForDeletion,
                    ho, he, hd, hc, hm, hdr]
            | some s =>
              cases hp : parseRFC3339 s with
              | none => exact Or.inr (Or.inr (Or.inl ⟨s, rfl, hp⟩))
              | some t =>
                by_cases hex : (now : Int) > (t : Int) + cfg.gracePeriod
                · by_cases hdr : cfg.dryRun
                  · exact Or.inl (by
                      simp [ProcessNamespace, handleInvalidUser, deleteNamespace,
                        ho, he, hd, hc, hm, hp, hex, hdr])
                  · exact Or.inr (Or.inr (Or.inr (Or.inr (by
                      simp [ProcessNamespace, handleInvalidUser, deleteNamespace,
                        ho, he, hd, hc, hm, hp, hex, hdr]))))
                · exact Or.inl (by
                    simp [ProcessNamespace, handleInvalidUser,
                      ho, he, hd, hc, hm, hp, hex])
      · exact Or.inl (by simp [ProcessNamespace, ho, he, hd])

set_option maxRecDepth 16000 in
/-- Counterexample to C8 as stated: starting from a namespace with a
corrupt `delete-at` marker, the first invocation removes the marker and
the immediately following invocation — with the identity result and the
clock unchanged — sets a fresh marker, so the annotation state after the
second call differs from the state after the first call. -/
theorem idempotence_fails_on_corrupt_marker :
    applyCalls (some ⟨"c8", [("owner", "u@example.com"),
          ("namespace-auditor/delete-at", "not-a-timestamp")], [], none⟩)
        (ProcessNamespace ⟨1000000000, ["example.com"], false⟩ (fun _ => some false)
            0 ⟨"c8", [("owner", "u@example.com"),
              ("namespace-auditor/delete-at", "not-a-timestamp")], [],
              none⟩).calls =
      some ⟨"c8", [("owner", "u@example.com")], [], none⟩ ∧
    applyCalls (some ⟨"c8", [("owner", "u@example.com")], [], none⟩)
        (ProcessNamespace ⟨1000000000, ["example.com"], false⟩ (fun _ => some false)
            0 ⟨"c8", [("owner", "u@example.com")], [], none⟩).calls =
      some ⟨"c8", [("owner", "u@example.com"),
        ("namespace-auditor/delete-at", "TS:0")], [], none⟩ ∧
    (some (⟨"c8", [("owner", "u@example.com"),
          ("namespace-auditor/delete-at", "TS:0")], [], none⟩ : GoNamespace) ≠
      some (⟨"c8", [("owner", "u@example.com")], [], none⟩ : GoNamespace)) := by
  decide

/-- C8 (amended): re-running `ProcessNamespace` immediately, with the
identity result and the clock unchanged, leaves the stored namespace
exactly as the first run left it, provided every present marker parses
(a corrupt marker oscillates: removed, then re-marked next pass) and the
grace period is at least the clock's sub-second part (RFC-3339 formatting
truncates the stamped marker to whole seconds). -/
theorem process_idempotent (cfg : Config) (checker : String → Option Bool)
    (now : Nat) (ns ns₁ : GoNamespace)
    (hg : ((now % nsPerSec : Nat) : Int) ≤ cfg.gracePeriod)
    (hvalid : ∀ s, lookupAnn ns.annotations deleteAtKey = some s →
      parseRFC3339 s ≠ none)
    (h1 : applyCalls (some ns) (ProcessNamespace cfg checker now ns).calls =
      some ns₁) :
    applyCalls (some ns₁) (ProcessNamespace cfg checker now ns₁).calls =
      some ns₁ := by
  rcases ProcessNamespace_state_cases cfg checker now ns with
    ⟨hcalls, _⟩ |
    ⟨e, s, hdr, hown, hne, hdom, hc, hm, hns, hcalls⟩ |
    ⟨s, hm, hp⟩ |
    ⟨e, hdr, hown, hne, hdom, hc, hm, hns, hcalls⟩ |
    hcalls
  · -- first call issued nothing: the second call is the same call
    rw [hcalls, applyCalls_nil, Option.some.injEq] at h1
    subst h1
    rw [hcalls, applyCalls_nil]
  · -- valid user, stale marker removed; second call finds no marker
    rw [hcalls, applyCalls_update, Option.some.injEq] at h1
    have hns₁ : ns₁ = { ns with annotations := eraseAnn ns.annotations deleteAtKey } :=
      h1.symm.trans hns
    subst hns₁
    have hown' : lookupAnn (eraseAnn ns.annotations deleteAtKey) ownerKey = some e :=
      (lookupAnn_eraseAnn_ne _ ownerKey_ne_deleteAtKey).trans hown
    have h2 : (ProcessNamespace cfg checker now
        { ns with annotations := eraseAnn ns.annotations deleteAtKey }).calls = [] := by
      simp [ProcessNamespace, handleValidUser, hown', hne, hdom, hc,
        lookupAnn_eraseAnn_self]
    rw [h2, applyCalls_nil]
  · -- corrupt marker: excluded by the well-formedness hypothesis
    exact absurd hp (hvalid s hm)
  · -- orphan marked now; second call parses the fresh marker, still pending
    rw [hcalls, applyCalls_update, Option.some.injEq] at h1
    have hns₁ : ns₁ =
        { ns with
          annotations := setAnn ns.annotations deleteAtKey (formatRFC3339 now) } :=
      h1.symm.trans hns
    subst hns₁
    have hown' : lookupAnn
        (setAnn ns.annotations deleteAtKey (formatRFC3339 now)) ownerKey = some e :=
      (lookupAnn_setAnn_ne _ _ ownerKey_ne_deleteAtKey).trans hown
    have hmark' : lookupAnn
        (setAnn ns.annotations deleteAtKey (formatRFC3339 now)) deleteAtKey =
        some (formatRFC3339 now) :=
      lookupAnn_setAnn_self _ _ _
    have hnogt : ¬((now : Int) > ((now / nsPerSec * nsPerSec : Nat) : Int) +
        cfg.gracePeriod) := by
      have h2 : now / nsPerSec * nsPerSec + now % nsPerSec = now := by
        simp only [nsPerSec]
        omega
      omega
    have h2 : (ProcessNamespace cfg checker now
        { ns with
          annotations := setAnn ns.annotations deleteAtKey (formatRFC3339 now) }).calls
        = [] := by
      rw [ProcessNamespace_orphan_parsed cfg checker now _ e _ _ hown' hne hdom
        hc hmark' (parse_format now), if_neg hnogt]
    rw [h2, applyCalls_nil]
  · -- namespace deleted: the store no longer holds it
    rw [hcalls, applyCalls_delete] at h1
    exact Option.noConfusion h1

set_option maxRecDepth 16000 in
/-- Witness for C8 (amended): an orphan namespace marked on the first
pass; the second pass leaves the marked state untouched. -/
theorem process_idempotent_witness :
    applyCalls (some ⟨"w8", [("owner", "u@example.com"),
          ("namespace-auditor/delete-at", "TS:0")], [], none⟩)
        (ProcessNamespace ⟨1000000000, ["example.com"], false⟩ (fun _ => some false)
            0 ⟨"w8", [("owner", "u@example.com"),
              ("namespace-auditor/delete-at", "TS:0")], [], none⟩).calls =
      some ⟨"w8", [("owner", "u@example.com"),
        ("namespace-auditor/delete-at", "TS:0")], [], none⟩ := by
  have h := process_idempotent ⟨1000000000, ["example.com"], false⟩
    (fun _ => some false) 0
    ⟨"w8", [("owner", "u@example.com")], [], none⟩
    ⟨"w8", [("owner", "u@example.com"),
      ("namespace-auditor/delete-at", "TS:0")], [], none⟩
    (by decide)
    (fun s hs => Option.noConfusion hs)
    (by decide)
  exact h

/-- Witness for C6 at the concrete namespace `no-owner-ns`. -/
theorem unmanaged_untouched_witness :
    (ProcessNamespace ⟨0, ["example.com"], false⟩ (fun _ => some false) 0
        ⟨"no-owner-ns", [], [], none⟩).calls = [] ∧
      (ProcessNamespace ⟨0, ["example.com"], false⟩ (fun _ => some false) 0
          ⟨"no-owner-ns", [], [], none⟩).ns = ⟨"no-owner-ns", [], [], none⟩ ∧
      (ProcessNamespace ⟨0, ["example.com"], false⟩ (fun _ => some false) 0
          ⟨"no-owner-ns", [], [], none⟩).checkedIdentity = false :=
  unmanaged_untouched _ (fun _ => some false) 0 _ (Or.inl rfl)

end NsAuditor
